import Mathlib

/-!
Shallow embedding of `sequencer.py` (Kreu/Sequencer): a command-line tool
that filters a DNA base-call sequence by per-base quality scores, with
optional reverse complementation.

Python strings become `List Char`; score tokens stay `String` since the
code parses them per-use via `int(...)`.  A Python function that can
`return` a value, fall off the end (returning `None`), or raise, becomes
a function into `PyResult`.
-/

namespace Sequencer

/-- Outcome of a Python call in this program: a returned value, the
implicit `None` return, or a raised exception. -/
inductive PyError where
  /-- The `ValueError` raised by `FilterSequence` on a length mismatch. -/
  | lengthMismatch
  /-- The `ValueError` raised by `int(token)` on a non-numeric token. -/
  | intParseError (token : String)
  /-- The `IndexError` from `nucleotide_list[position]` past the end
  (unreachable after the length guard). -/
  | indexError
  deriving DecidableEq, Repr

/-- Result of a Python function: `ret v` (an explicit `return v`),
`retNone` (falling off the end or a bare `return`), or `raise e`. -/
inductive PyResult (α : Type) where
  | ret (value : α)
  | retNone
  | raise (e : PyError)
  deriving DecidableEq, Repr

/-- Value of a run of decimal digit characters, `none` as soon as a
non-digit appears.  Embeds the digit-scanning core of Python `int`. -/
def digitsVal : List Char → Nat → Option Nat
  | [], acc => some acc
  | c :: cs, acc =>
      if c.isDigit then digitsVal cs (10 * acc + (c.toNat - 48)) else none

/-- Parse a non-empty all-digit run; `none` on the empty list or any
non-digit character. -/
def parseDigits : List Char → Option Nat
  | [] => none
  | l => digitsVal l 0

/-- Whitespace removed from both ends of a character list, the
surrounding-whitespace tolerance of Python `int`. -/
def trimWS (l : List Char) : List Char :=
  ((l.dropWhile Char.isWhitespace).reverse.dropWhile Char.isWhitespace).reverse

/-- Embedding of Python `int(s)` on the strings this program feeds it:
surrounding whitespace stripped, an optional sign, then a non-empty run
of decimal digits.  (Python additionally accepts underscore digit
grouping and non-ASCII digits; no score token in this program's format,
space-separated decimal numbers, uses either.) -/
def pyInt (s : String) : Option Int :=
  match trimWS s.toList with
  | '+' :: rest => (parseDigits rest).map Int.ofNat
  | '-' :: rest => (parseDigits rest).map (fun n => -(Int.ofNat n : Int))
  | l => (parseDigits l).map Int.ofNat

/-- Embedding of the `for quality_score in quality_list` loop of
`FilterSequence` (sequencer.py lines 104-116).  `position` walks the
nucleotide list in step with the score list, so the index access
`nucleotide_list[position]` becomes structural recursion on both lists;
a score list longer than the nucleotide list would be the Python
`IndexError`.  `int(quality_score)` raising aborts the loop with no
result, which `Except` propagates. -/
def filterLoop (quality_cutoff : Int) : List Char → List String → Except PyError (List Char)
  | _, [] => .ok []
  | [], _ :: _ => .error .indexError
  | n :: ns, s :: ss =>
      match pyInt s with
      | none => .error (.intParseError s)
      | some v =>
          match filterLoop quality_cutoff ns ss with
          | .ok rest => .ok ((if v ≥ quality_cutoff then n else '-') :: rest)
          | .error e => .error e

/-- Embedding of `FilterSequence` (sequencer.py lines 85-116): empty
nucleotide list returns `None`; empty score list returns `None`; unequal
lengths raise `ValueError`; otherwise each position keeps the nucleotide
when its parsed score is `>=` the cutoff and becomes the gap `'-'` when
it is below. -/
def FilterSequence (nucleotide_list : List Char) (quality_list : List String)
    (quality_cutoff : Int) : PyResult (List Char) :=
  if nucleotide_list = [] then .retNone
  else if quality_list = [] then .retNone
  else if nucleotide_list.length ≠ quality_list.length then .raise .lengthMismatch
  else
    match filterLoop quality_cutoff nucleotide_list quality_list with
    | .ok filtered_sequence => .ret filtered_sequence
    | .error e => .raise e

/-- Embedding of the per-character branch chain of `ReverseComplement`
(sequencer.py lines 143-151). -/
def complementChar (c : Char) : Char :=
  if c = 'A' then 'T'
  else if c = 'a' then 't'
  else if c = 'G' then 'C'
  else if c = 'g' then 'c'
  else if c = 'C' then 'G'
  else if c = 'c' then 'g'
  else if c = 'T' then 'A'
  else if c = 't' then 'a'
  else c

/-- Embedding of `ReverseComplement` (sequencer.py lines 139-153):
`sequence[::-1]` then the complement of each character appended in
order, i.e. `map complementChar` over the reversed list. -/
def ReverseComplement (sequence : List Char) : List Char :=
  sequence.reverse.map complementChar

/-- True when the line starts with the FASTA header character, the
embedding of `line.startswith('>')`. -/
def startsWithGT : List Char → Bool
  | [] => false
  | c :: _ => c = '>'

/-- Embedding of Python `line.strip(chr(10))`: newline characters
removed from both ends of the line. -/
def stripNL (line : List Char) : List Char :=
  ((line.dropWhile (· = '\n')).reverse.dropWhile (· = '\n')).reverse

/-- Embedding of the line loop of `ReadFileContent` (sequencer.py lines
56-64): a header line sets `header_found` and is skipped; the first
later non-header line is returned stripped of newlines; exhausting the
file falls off the end, returning `None` (here `Option.none`). -/
def readLoop : Bool → List (List Char) → Option (List Char)
  | _, [] => none
  | header_found, line :: rest =>
      if startsWithGT line then readLoop true rest
      else if header_found then some (stripNL line)
      else readLoop header_found rest

/-- Embedding of `ReadFileContent` (sequencer.py lines 53-64), with the
file modelled as its list of lines: the loop is entered with
`header_found = False`. -/
def ReadFileContent (lines : List (List Char)) : Option (List Char) :=
  readLoop false lines

/-- What one iteration of the filter loop emits at a position: the
nucleotide when its parsed score reaches the cutoff, the gap `'-'`
otherwise. -/
def keepOrGap (quality_cutoff : Int) (n : Char) (t : String) : Char :=
  if (pyInt t).getD 0 ≥ quality_cutoff then n else '-'

/-- When every score token parses, the filter loop succeeds and computes
the pointwise `keepOrGap` of the two lists. -/
theorem filterLoop_eq_ok (c : Int) :
    ∀ (ns : List Char) (ss : List String), ns.length = ss.length →
      (∀ t ∈ ss, (pyInt t).isSome) →
      filterLoop c ns ss = Except.ok (List.zipWith (keepOrGap c) ns ss)
  | [], [], _, _ => rfl
  | [], _ :: _, h, _ => by simp at h
  | _ :: _, [], h, _ => by simp at h
  | n :: ns, s :: ss, h, hp => by
    obtain ⟨v, hv⟩ := Option.isSome_iff_exists.mp (hp s (List.mem_cons_self _ _))
    have ih := filterLoop_eq_ok c ns ss (by simpa using h)
      (fun t ht => hp t (List.mem_cons_of_mem _ ht))
    simp [filterLoop, hv, ih, keepOrGap, List.zipWith]

/-- Conversely, a successful filter loop forces every token to parse and
the output to be the pointwise `keepOrGap`. -/
theorem filterLoop_ok_inv (c : Int) :
    ∀ (ns : List Char) (ss : List String) (out : List Char),
      ns.length = ss.length → filterLoop c ns ss = Except.ok out →
      (∀ t ∈ ss, (pyInt t).isSome) ∧ out = List.zipWith (keepOrGap c) ns ss
  | [], [], out, _, h => by
    refine ⟨by simp, ?_⟩
    simpa [filterLoop] using h.symm
  | [], _ :: _, _, h, _ => by simp at h
  | _ :: _, [], _, h, _ => by simp at h
  | n :: ns, s :: ss, out, h, hl => by
    cases hv : pyInt s with
    | none => simp [filterLoop, hv] at hl
    | some v =>
      cases hrest : filterLoop c ns ss with
      | error e => simp [filterLoop, hv, hrest] at hl
      | ok rest =>
        obtain ⟨hp, hout⟩ := filterLoop_ok_inv c ns ss rest (by simpa using h) hrest
        refine ⟨?_, ?_⟩
        · intro t ht
          rcases List.mem_cons.mp ht with rfl | ht
          · simp [hv]
          · exact hp t ht
        · simp only [filterLoop, hv, hrest] at hl
          cases hl
          simp [List.zipWith, keepOrGap, hv, hout]

/-- A score list containing a token that does not parse makes the filter
loop raise the parse error of some such token. -/
theorem filterLoop_parse_error (c : Int) :
    ∀ (ns : List Char) (ss : List String), ns.length = ss.length →
      (∃ t ∈ ss, pyInt t = none) →
      ∃ t, t ∈ ss ∧ pyInt t = none ∧
        filterLoop c ns ss = Except.error (PyError.intParseError t)
  | _, [], _, hbad => by simp at hbad
  | [], _ :: _, h, _ => by simp at h
  | n :: ns, s :: ss, h, hbad => by
    cases hv : pyInt s with
    | none => exact ⟨s, List.mem_cons_self _ _, hv, by simp [filterLoop, hv]⟩
    | some v =>
      have hbad' : ∃ t ∈ ss, pyInt t = none := by
        rcases hbad with ⟨t, ht, htn⟩
        rcases List.mem_cons.mp ht with rfl | ht
        · exact absurd htn (by simp [hv])
        · exact ⟨t, ht, htn⟩
      obtain ⟨t, ht, htn, hloop⟩ := filterLoop_parse_error c ns ss (by simpa using h) hbad'
      exact ⟨t, List.mem_cons_of_mem _ ht, htn, by simp [filterLoop, hv, hloop]⟩

/-- On non-empty equal-length inputs whose tokens all parse,
`FilterSequence` returns the pointwise `keepOrGap` of the two lists. -/
theorem FilterSequence_eq_ret (s : List Char) (q : List String) (c : Int)
    (hs : s ≠ []) (hlen : s.length = q.length) (hp : ∀ t ∈ q, (pyInt t).isSome) :
    FilterSequence s q c = PyResult.ret (List.zipWith (keepOrGap c) s q) := by
  have hq : q ≠ [] := fun h => hs (by simp [h] at hlen; exact hlen)
  unfold FilterSequence
  rw [if_neg hs, if_neg hq, if_neg (not_not_intro hlen), filterLoop_eq_ok c s q hlen hp]

/-- An empty nucleotide list or an empty score list short-circuits
`FilterSequence` into the implicit `None` return. -/
theorem FilterSequence_empty (s : List Char) (q : List String) (c : Int)
    (h : s = [] ∨ q = []) : FilterSequence s q c = PyResult.retNone := by
  unfold FilterSequence
  rcases h with rfl | rfl
  · rw [if_pos rfl]
  · by_cases hs : s = []
    · rw [if_pos hs]
    · rw [if_neg hs, if_pos rfl]

/-- Inversion: a returned value out of `FilterSequence` forces both
guards to have passed and the loop to have succeeded. -/
theorem FilterSequence_ret_inv (s : List Char) (q : List String) (c : Int) (out : List Char)
    (h : FilterSequence s q c = PyResult.ret out) :
    s ≠ [] ∧ q ≠ [] ∧ s.length = q.length ∧ filterLoop c s q = Except.ok out := by
  unfold FilterSequence at h
  by_cases hs : s = []
  · rw [if_pos hs] at h; exact PyResult.noConfusion h
  by_cases hq : q = []
  · rw [if_neg hs, if_pos hq] at h; exact PyResult.noConfusion h
  by_cases hlen : s.length = q.length
  · refine ⟨hs, hq, hlen, ?_⟩
    rw [if_neg hs, if_neg hq, if_neg (not_not_intro hlen)] at h
    cases hloop : filterLoop c s q with
    | ok o =>
      rw [hloop] at h
      simp only [] at h
      cases h
      rfl
    | error e =>
      rw [hloop] at h
      exact PyResult.noConfusion h
  · rw [if_neg hs, if_neg hq, if_pos hlen] at h
    exact PyResult.noConfusion h

/-- The complement table exactly as the spec words it: `A↔T`, `G↔C`,
case preserved per symbol, every symbol outside the eight letters passed
through unchanged. -/
def specComplement (c : Char) : Char :=
  if c = 'A' then 'T'
  else if c = 'T' then 'A'
  else if c = 'a' then 't'
  else if c = 't' then 'a'
  else if c = 'G' then 'C'
  else if c = 'C' then 'G'
  else if c = 'g' then 'c'
  else if c = 'c' then 'g'
  else c

/-- The code's branch chain computes the spec's complement table. -/
theorem complementChar_eq_spec (c : Char) : complementChar c = specComplement c := by
  by_cases hA : c = 'A'
  · subst hA; decide
  by_cases ha : c = 'a'
  · subst ha; decide
  by_cases hG : c = 'G'
  · subst hG; decide
  by_cases hg : c = 'g'
  · subst hg; decide
  by_cases hC : c = 'C'
  · subst hC; decide
  by_cases hc : c = 'c'
  · subst hc; decide
  by_cases hT : c = 'T'
  · subst hT; decide
  by_cases ht : c = 't'
  · subst ht; decide
  simp [complementChar, specComplement, hA, ha, hG, hg, hC, hc, hT, ht]

/-- Complementing twice is the identity on every character: the eight
letters pair up and everything else is fixed. -/
theorem complementChar_involutive (c : Char) : complementChar (complementChar c) = c := by
  by_cases hA : c = 'A'
  · subst hA; decide
  by_cases ha : c = 'a'
  · subst ha; decide
  by_cases hG : c = 'G'
  · subst hG; decide
  by_cases hg : c = 'g'
  · subst hg; decide
  by_cases hC : c = 'C'
  · subst hC; decide
  by_cases hc : c = 'c'
  · subst hc; decide
  by_cases hT : c = 'T'
  · subst hT; decide
  by_cases ht : c = 't'
  · subst ht; decide
  simp [complementChar, hA, ha, hG, hg, hC, hc, hT, ht]

/-- Once the header has been seen, the loop returns the first non-header
line, stripped, and `none` when only headers remain. -/
theorem readLoop_true (L : List (List Char)) :
    readLoop true L = ((L.dropWhile startsWithGT).head?).map stripNL := by
  induction L with
  | nil => rfl
  | cons line rest ih =>
    cases h : startsWithGT line with
    | true => simp [readLoop, h, List.dropWhile_cons, ih]
    | false => simp [readLoop, h, List.dropWhile_cons]

/-- Before the header has been seen, the loop skips everything up to the
first header line, then behaves as `readLoop_true` describes. -/
theorem readLoop_false (L : List (List Char)) :
    readLoop false L =
      (((L.dropWhile fun l => !startsWithGT l).dropWhile startsWithGT).head?).map stripNL := by
  induction L with
  | nil => rfl
  | cons line rest ih =>
    cases h : startsWithGT line with
    | true => simp [readLoop, h, List.dropWhile_cons, readLoop_true rest]
    | false => simp [readLoop, h, List.dropWhile_cons, ih]

/-- C1: for every non-empty Sequence and ScoreList of equal length whose
tokens all parse as integers, and every integer Cutoff, Filter returns a
list where position `i` holds `Sequence[i]` when the parsed score at `i`
is `>=` Cutoff and the gap marker `'-'` when it is below; the comparison
being `≥`, a score exactly equal to the cutoff is retained. -/
theorem filter_pointwise_spec (s : List Char) (q : List String) (c : Int)
    (hs : s ≠ []) (_hq : q ≠ []) (hlen : s.length = q.length)
    (hp : ∀ t ∈ q, (pyInt t).isSome) :
    ∃ out, FilterSequence s q c = PyResult.ret out ∧
      ∀ i (hi : i < out.length) (hsi : i < s.length) (hqi : i < q.length),
        out.get ⟨i, hi⟩ =
          if (pyInt (q.get ⟨i, hqi⟩)).getD 0 ≥ c then s.get ⟨i, hsi⟩ else '-' := by
  refine ⟨List.zipWith (keepOrGap c) s q, FilterSequence_eq_ret s q c hs hlen hp, ?_⟩
  intro i hi hsi hqi
  simp [List.get_eq_getElem, List.getElem_zipWith, keepOrGap]

/-- Witness for `filter_pointwise_spec` at the spec §8 example. -/
theorem filter_pointwise_spec_witness :
    ∃ out,
      FilterSequence ['A', 'G', 'T', 'C', 'G'] ["10", "19", "50", "40", "30"] 20 =
        PyResult.ret out ∧
      ∀ i (hi : i < out.length) (hsi : i < (['A', 'G', 'T', 'C', 'G'] : List Char).length)
        (hqi : i < (["10", "19", "50", "40", "30"] : List String).length),
        out.get ⟨i, hi⟩ =
          if (pyInt ((["10", "19", "50", "40", "30"] : List String).get ⟨i, hqi⟩)).getD 0 ≥ 20
          then (['A', 'G', 'T', 'C', 'G'] : List Char).get ⟨i, hsi⟩ else '-' :=
  filter_pointwise_spec ['A', 'G', 'T', 'C', 'G'] ["10", "19", "50", "40", "30"] 20
    (by decide) (by decide) (by decide) (by decide)

/-- C2 counterexample: with an empty Sequence and a non-empty ScoreList
the lengths differ, yet Filter returns `None` instead of raising the
length-mismatch error, because the emptiness guard runs first. -/
theorem filter_mismatch_counterexample :
    ([] : List Char).length ≠ (["1"] : List String).length ∧
      FilterSequence [] ["1"] 0 ≠ PyResult.raise PyError.lengthMismatch ∧
      FilterSequence [] ["1"] 0 = PyResult.retNone := by
  refine ⟨by decide, ?_, rfl⟩
  intro h
  exact PyResult.noConfusion h

/-- C2 amended: for every *non-empty* Sequence and *non-empty* ScoreList
of differing lengths and every integer Cutoff, Filter raises the
length-mismatch `ValueError`, regardless of the cutoff value. -/
theorem filter_mismatch_raises (s : List Char) (q : List String) (c : Int)
    (hs : s ≠ []) (hq : q ≠ []) (hlen : s.length ≠ q.length) :
    FilterSequence s q c = PyResult.raise PyError.lengthMismatch := by
  unfold FilterSequence
  rw [if_neg hs, if_neg hq, if_pos hlen]

/-- Witness for `filter_mismatch_raises` at the Python unit test input. -/
theorem filter_mismatch_raises_witness :
    FilterSequence ['A', 'G', 'C', 'A'] ["20", "30", "40"] 20 =
      PyResult.raise PyError.lengthMismatch :=
  filter_mismatch_raises ['A', 'G', 'C', 'A'] ["20", "30", "40"] 20
    (by decide) (by decide) (by decide)

/-- C3: for every cutoff, when either the Sequence list or the ScoreList
is empty, Filter returns the absent result (`None`) rather than raising. -/
theorem filter_empty_returns_none (s : List Char) (q : List String) (c : Int)
    (h : s = [] ∨ q = []) : FilterSequence s q c = PyResult.retNone :=
  FilterSequence_empty s q c h

/-- Witness for `filter_empty_returns_none` on an empty score list. -/
theorem filter_empty_returns_none_witness :
    FilterSequence ['A'] [] 20 = PyResult.retNone :=
  filter_empty_returns_none ['A'] [] 20 (Or.inr rfl)

/-- C8: on non-empty equal-length inputs, a score token that does not
parse as an integer makes Filter raise the parse error of such a token —
an exception, so no partial result is returned. -/
theorem filter_parse_error (s : List Char) (q : List String) (c : Int)
    (hs : s ≠ []) (hlen : s.length = q.length)
    (hbad : ∃ t ∈ q, pyInt t = none) :
    ∃ t, t ∈ q ∧ pyInt t = none ∧
      FilterSequence s q c = PyResult.raise (PyError.intParseError t) := by
  have hq : q ≠ [] := fun h => hs (by simp [h] at hlen; exact hlen)
  obtain ⟨t, ht, htn, hloop⟩ := filterLoop_parse_error c s q hlen hbad
  refine ⟨t, ht, htn, ?_⟩
  unfold FilterSequence
  rw [if_neg hs, if_neg hq, if_neg (not_not_intro hlen), hloop]

/-- Witness for `filter_parse_error` at the Python `test_bad_input`
data. -/
theorem filter_parse_error_witness :
    ∃ t, t ∈ (["g", "g", "h", "&", "x"] : List String) ∧ pyInt t = none ∧
      FilterSequence ['y', 'g', 'E', 'R', 'R'] ["g", "g", "h", "&", "x"] 20 =
        PyResult.raise (PyError.intParseError t) :=
  filter_parse_error ['y', 'g', 'E', 'R', 'R'] ["g", "g", "h", "&", "x"] 20
    (by decide) (by decide) ⟨"g", by decide, by decide⟩

/-- C9: whenever Filter returns a result, that result is as long as the
input Sequence, and each output position holds either the input symbol
of the same position or the gap marker, so ordering is preserved. -/
theorem filter_length_order (s : List Char) (q : List String) (c : Int) (out : List Char)
    (h : FilterSequence s q c = PyResult.ret out) :
    out.length = s.length ∧
      ∀ i (hi : i < out.length) (hsi : i < s.length),
        out.get ⟨i, hi⟩ = s.get ⟨i, hsi⟩ ∨ out.get ⟨i, hi⟩ = '-' := by
  obtain ⟨hs, hq, hlen, hloop⟩ := FilterSequence_ret_inv s q c out h
  obtain ⟨hp, rfl⟩ := filterLoop_ok_inv c s q out hlen hloop
  constructor
  · simp [List.length_zipWith, hlen]
  · intro i hi hsi
    simp only [List.get_eq_getElem, List.getElem_zipWith, keepOrGap]
    split
    · exact Or.inl rfl
    · exact Or.inr rfl

/-- Witness for `filter_length_order` at a concrete run of the filter. -/
theorem filter_length_order_witness :
    (['a', '-'] : List Char).length = (['a', 'G'] : List Char).length ∧
      ∀ i (hi : i < (['a', '-'] : List Char).length)
        (hsi : i < (['a', 'G'] : List Char).length),
        (['a', '-'] : List Char).get ⟨i, hi⟩ = (['a', 'G'] : List Char).get ⟨i, hsi⟩ ∨
          (['a', '-'] : List Char).get ⟨i, hi⟩ = '-' :=
  filter_length_order ['a', 'G'] ["20", "19"] 20 ['a', '-'] (by decide)

/-- C10: emptiness is checked before lengths — when exactly one of the
two lists is empty, their lengths differ and yet Filter returns the
absent result without raising any exception. -/
theorem filter_empty_before_mismatch (s : List Char) (q : List String) (c : Int)
    (h : (s = [] ∧ q ≠ []) ∨ (s ≠ [] ∧ q = [])) :
    s.length ≠ q.length ∧ FilterSequence s q c = PyResult.retNone := by
  rcases h with ⟨rfl, hq⟩ | ⟨hs, rfl⟩
  · refine ⟨?_, FilterSequence_empty _ _ _ (Or.inl rfl)⟩
    simpa using fun hlen => hq (List.length_eq_zero.mp hlen.symm)
  · refine ⟨?_, FilterSequence_empty _ _ _ (Or.inr rfl)⟩
    simpa using fun hlen => hs (List.length_eq_zero.mp hlen)

/-- Witness for `filter_empty_before_mismatch` on an empty sequence. -/
theorem filter_empty_before_mismatch_witness :
    ([] : List Char).length ≠ (["1"] : List String).length ∧
      FilterSequence [] ["1"] 0 = PyResult.retNone :=
  filter_empty_before_mismatch [] ["1"] 0 (Or.inl ⟨rfl, by decide⟩)

/-- C4: `ReverseComplement` reverses the symbol order and complements
each symbol per the spec's table (`A↔T`, `G↔C`, case preserved, symbols
outside the eight letters passed through unchanged at their reversed
position); being a total Lean function it yields a value on every
input. -/
theorem reverseComplement_spec (s : List Char) :
    ReverseComplement s = s.reverse.map specComplement ∧
      (ReverseComplement s).length = s.length ∧
      ∀ i (hi : i < (ReverseComplement s).length) (hj : s.length - 1 - i < s.length),
        (ReverseComplement s).get ⟨i, hi⟩ = specComplement (s.get ⟨s.length - 1 - i, hj⟩) := by
  have hfun : complementChar = specComplement := funext complementChar_eq_spec
  refine ⟨by rw [ReverseComplement, hfun], by simp [ReverseComplement], ?_⟩
  intro i hi hj
  simp only [ReverseComplement, List.get_eq_getElem, List.getElem_map, List.getElem_reverse,
    complementChar_eq_spec]

/-- Witness for `reverseComplement_spec` at the spec §8 example
`ReverseComplement "agt-C" = "G-act"`: position `0` of the result is the
spec complement of the last input symbol. -/
theorem reverseComplement_spec_witness :
    (ReverseComplement ['a', 'g', 't', '-', 'C']).get ⟨0, by decide⟩ =
      specComplement ((['a', 'g', 't', '-', 'C'] : List Char).get
        ⟨(['a', 'g', 't', '-', 'C'] : List Char).length - 1 - 0, by decide⟩) :=
  (reverseComplement_spec ['a', 'g', 't', '-', 'C']).2.2 0 (by decide) (by decide)

/-- C5: on every string over the letters `A`, `C`, `G`, `T` in either
case, `ReverseComplement` composed with itself is the identity. -/
theorem reverseComplement_involution (s : List Char)
    (_h : ∀ c ∈ s, c ∈ (['A', 'C', 'G', 'T', 'a', 'c', 'g', 't'] : List Char)) :
    ReverseComplement (ReverseComplement s) = s := by
  have hid : complementChar ∘ complementChar = id := funext complementChar_involutive
  simp [ReverseComplement, List.map_reverse, List.reverse_reverse, List.map_map, hid]

/-- Witness for `reverseComplement_involution` on `"AGTCAT"`. -/
theorem reverseComplement_involution_witness :
    ReverseComplement (ReverseComplement ['A', 'G', 'T', 'C', 'A', 'T']) =
      ['A', 'G', 'T', 'C', 'A', 'T'] :=
  reverseComplement_involution ['A', 'G', 'T', 'C', 'A', 'T'] (by decide)

/-- C6: reversing the score list preserves score-to-base correspondence
under reverse complement — filtering the reverse complement against the
reversed scores returns exactly the reverse complement of the plain
filtered result. -/
theorem filter_reverseComplement_commutes (s : List Char) (q : List String) (c : Int)
    (hs : s ≠ []) (_hq : q ≠ []) (hlen : s.length = q.length)
    (hp : ∀ t ∈ q, (pyInt t).isSome) :
    ∃ out, FilterSequence s q c = PyResult.ret out ∧
      FilterSequence (ReverseComplement s) q.reverse c =
        PyResult.ret (ReverseComplement out) := by
  have hfun : ∀ n t, keepOrGap c (complementChar n) t = complementChar (keepOrGap c n t) := by
    intro n t
    unfold keepOrGap
    split
    · rfl
    · rfl
  refine ⟨List.zipWith (keepOrGap c) s q, FilterSequence_eq_ret s q c hs hlen hp, ?_⟩
  have hrs : ReverseComplement s ≠ [] := by
    intro hcontra
    apply hs
    simpa [ReverseComplement] using hcontra
  have hlen2 : (ReverseComplement s).length = q.reverse.length := by
    simp [ReverseComplement, hlen]
  have hp2 : ∀ t ∈ q.reverse, (pyInt t).isSome := fun t ht => hp t (List.mem_reverse.mp ht)
  rw [FilterSequence_eq_ret _ _ c hrs hlen2 hp2]
  congr 1
  unfold ReverseComplement
  rw [List.zipWith_map_left, List.reverse_zipWith hlen, List.map_zipWith]
  simp only [hfun]

/-- Witness for `filter_reverseComplement_commutes` on a two-base read. -/
theorem filter_reverseComplement_commutes_witness :
    ∃ out, FilterSequence ['A', 'G'] ["10", "30"] 20 = PyResult.ret out ∧
      FilterSequence (ReverseComplement ['A', 'G']) (["10", "30"] : List String).reverse 20 =
        PyResult.ret (ReverseComplement out) :=
  filter_reverseComplement_commutes ['A', 'G'] ["10", "30"] 20
    (by decide) (by decide) (by decide) (by decide)

/-- C7: on a file modelled as its list of lines, `ReadFileContent`
returns the first content line (line not starting with `>`) found after
the first header line, stripped of its newline; when no header exists,
or only headers follow the first one, it returns `none` rather than
failing.  The right-hand side says exactly that: drop the lines before
the first header, drop the run of header lines, and take the head. -/
theorem readFileContent_first_content (lines : List (List Char)) :
    ReadFileContent lines =
      (((lines.dropWhile fun l => !startsWithGT l).dropWhile startsWithGT).head?).map stripNL :=
  readLoop_false lines

end Sequencer
